import Mathlib

/-!
Verification of the EPUB tracked-transformation pipeline (src/main.py).

A shallow embedding of the pipeline logic of `main.py`:
the per-unit checkpoint ("track") records, checkpoint creation and
reconciliation (`TranslationFlow.setTrack`), the per-unit retry loop of
`translate_all_from_track` / `translate_all`, the completeness gate
(`isTrackComplete` / `package`), the quality heuristic of
`GeminiCliTranslator._translate_content`, the batch selection rule of
`cli_main` in directory mode, and the cleanup control flow.

Filesystem state is modelled explicitly: a track file is a partial map
from path to a parsed record list; the external translator process is an
oracle `Nat → Bool` giving the outcome of the k-th invocation (the code
treats any raised exception as failure, so only the success/failure bit
and the produced content matter).
-/

namespace EpubFlow

/-- One checkpoint record, as stored in the JSON track file:
`{"file": ..., "relative": ..., "output": ..., "translated": bool}`
(`TranslationFlow.setTrack`, main.py lines 248-254). -/
structure TrackItem where
  file : String
  relative : String
  output : String
  translated : Bool
deriving Repr, DecidableEq

/-- Python `str.lower()` (the names reaching it here are ASCII). -/
def pyLower (s : String) : String := String.mk (s.data.map Char.toLower)

/-- Python `str.upper()`. -/
def pyUpper (s : String) : String := String.mk (s.data.map Char.toUpper)

/-- Python `str.startswith(p)`. -/
def pyStartsWith (s p : String) : Bool := p.data.isPrefixOf s.data

/-- Python `str.endswith(p)`. -/
def pyEndsWith (s p : String) : Bool := p.data.isSuffixOf s.data

/-- The number of characters of `s`. -/
def strLen (s : String) : Nat := s.data.length

/-- Remove the first `n` characters of `s`. -/
def strDrop (s : String) (n : Nat) : String := String.mk (s.data.drop n)

/-- Remove the last `n` characters of `s`. -/
def strDropRight (s : String) (n : Nat) : String :=
  String.mk (s.data.take (s.data.length - n))

/-- `os.path.relpath path base` restricted to the case occurring in the
pipeline: `path` is a file inside the directory `base` (every content
file comes from `os.walk(temp_dir)`), so the relative path is `path`
with the `base ++ "/"` prefix removed. -/
def relpath (path base : String) : String :=
  if pyStartsWith path (base ++ "/") then strDrop path (strLen base + 1) else path

/-- `os.path.join a b` for a non-absolute `b`, POSIX separator. -/
def pathJoin (a b : String) : String := a ++ "/" ++ b

/-- Build a fresh track from the enumerated content files: one record per
file, `translated=False`, `relative`/`output` empty
(`setTrack`, main.py lines 247-254). -/
def buildTrack (contentFiles : List String) : List TrackItem :=
  contentFiles.map (fun f => { file := f, relative := "", output := "", translated := false })

/-- Result of `setTrack`: the in-memory `self.track` and the contents of
the on-disk track file afterwards. -/
structure SetTrackResult where
  mem : List TrackItem
  disk : List TrackItem
deriving Repr, DecidableEq

/-- `TranslationFlow.setTrack` (main.py lines 213-263), modelled as a pure
function of the loaded track-file contents and the enumeration of the
extracted tree.  `loaded = some tr` is the `os.path.exists` branch: the
tree is re-walked giving `enumFiles` (lines 227-231); if the counts
differ the track file is removed and `setTrack` recurses, landing in the
not-found branch which rebuilds from `self.content_files` and persists
(lines 233-237, 246-261) — `content_files` was produced by `extract`'s
walk of the same untouched tree, so it equals `enumFiles` and both are
passed as one argument; if the counts match, each record's `file` field
is overwritten positionally with `enumFiles[i]` (lines 240-242) and the
disk file is left as loaded.  `loaded = none` is the fresh-creation
branch. -/
def setTrack (loaded : Option (List TrackItem)) (enumFiles : List String) : SetTrackResult :=
  match loaded with
  | some tr =>
      if enumFiles.length ≠ tr.length then
        { mem := buildTrack enumFiles, disk := buildTrack enumFiles }
      else
        { mem := tr.zipWith (fun item f => { item with file := f }) enumFiles, disk := tr }
  | none => { mem := buildTrack enumFiles, disk := buildTrack enumFiles }

/-- `TranslationFlow.isTrackComplete` (main.py lines 274-292): if the track
file exists, load it and return `False` as soon as a record has
`translated` false, `True` after the loop; if the file does not exist,
return `False`.  `fs` maps a path to the parsed record list of the file
stored there, `none` when no file exists. -/
def isTrackComplete (fs : String → Option (List TrackItem)) (track_filename : String) : Bool :=
  match fs track_filename with
  | some items => items.all (fun it => it.translated)
  | none => false

/-- `TranslationFlow.package` (main.py lines 378-386): raise when
`isTrackComplete` is false, otherwise hand the translated tree to the
packager.  Only the gate decision is relevant here. -/
def package (fs : String → Option (List TrackItem)) (track_filename : String) :
    Except String Unit :=
  if isTrackComplete fs track_filename then Except.ok ()
  else Except.error "Arquivo de track incompleto, impossível realizar empacotamento!"

/-- The inner retry loop `for timelimit in range(self.retry_limit)`
(main.py lines 360-371 in `translate_all_from_track`, and identically
lines 312-322 in `translate_all`): each iteration makes one call to
`self.translator.translate_file`; on success the loop breaks; on an
exception, if `can_retry` the loop sleeps and continues, otherwise it
raises `ValueError`.  If all `retry_limit` iterations fail with
`can_retry` set, the loop simply ends with the unit not translated.
`trOk k` is the outcome of the k-th translator invocation of the run
(counting from 0); the result carries the updated call counter,
`Except.error` models the propagating `ValueError`. -/
def attemptUnit (trOk : Nat → Bool) (can_retry : Bool) :
    Nat → Nat → Except Nat (Bool × Nat)
  | 0, calls => Except.ok (false, calls)
  | t + 1, calls =>
      if trOk calls then Except.ok (true, calls + 1)
      else if can_retry then attemptUnit trOk can_retry t (calls + 1)
      else Except.error (calls + 1)

/-- Aggregate result of the loop of `translate_all_from_track`:
the in-memory `self.track` (on an exception, its state at raise time),
the number of translator invocations made, and the successive full-list
snapshots written to the track file by `updateTrackFile`. -/
structure LoopResult where
  track : List TrackItem
  calls : Nat
  persists : List (List TrackItem)
deriving Repr, DecidableEq

/-- The per-record loop of `TranslationFlow.translate_all_from_track`
(main.py lines 345-373): records with `translated` true are skipped
(`continue`, line 351, which also skips the `updateTrackFile` call);
otherwise `relative`/`output` are set (lines 353-356), the retry loop
`attemptUnit` runs, on success `translated` is set true (line 364), on a
propagating exception the loop aborts with the current in-memory state,
and after the retry loop `updateTrackFile` writes the full current
record list (line 373) — also when the retry loop was exhausted without
success.  `done` is the already-traversed prefix, `rest` the remaining
records, `tempDir` is `self.temp_dir` and `transDir` the translated
tree, named by appending `_translated` to `self.original_temp_dir`. -/
def translateLoop (trOk : Nat → Bool) (can_retry : Bool) (retry_limit : Nat)
    (tempDir transDir : String) :
    List TrackItem → List TrackItem → Nat → List (List TrackItem) →
    Except LoopResult LoopResult
  | done, [], calls, persists => Except.ok ⟨done, calls, persists⟩
  | done, item :: rest, calls, persists =>
      if item.translated then
        translateLoop trOk can_retry retry_limit tempDir transDir
          (done ++ [item]) rest calls persists
      else
        let rel := relpath item.file tempDir
        let item1 : TrackItem :=
          { item with relative := rel, output := pathJoin transDir rel }
        match attemptUnit trOk can_retry retry_limit calls with
        | Except.error calls1 =>
            Except.error ⟨done ++ item1 :: rest, calls1, persists⟩
        | Except.ok (succ, calls1) =>
            let item2 : TrackItem := { item1 with translated := succ }
            let snapshot := done ++ item2 :: rest
            translateLoop trOk can_retry retry_limit tempDir transDir
              (done ++ [item2]) rest calls1 (persists ++ [snapshot])

/-- `TranslationFlow.translate_all_from_track` (main.py lines 331-376):
empty track returns immediately; otherwise the translated tree is
`original_temp_dir ++ "_translated"` and the record loop runs. -/
def translate_all_from_track (trOk : Nat → Bool) (can_retry : Bool) (retry_limit : Nat)
    (tempDir origTempDir : String) (track : List TrackItem) :
    Except LoopResult LoopResult :=
  if track = [] then Except.ok ⟨track, 0, []⟩
  else translateLoop trOk can_retry retry_limit tempDir (origTempDir ++ "_translated")
    [] track 0 []

/-- Number of records a resumed run still has to process. -/
def countUntranslated (track : List TrackItem) : Nat :=
  (track.filter (fun it => !it.translated)).length

/-- What `translateLoop` leaves of a single record: skipped when already
translated; otherwise `relative`/`output` are filled in and `translated`
becomes the outcome of its attempt. -/
def processedItem (tempDir transDir : String) (succ : Bool) (item : TrackItem) : TrackItem :=
  if item.translated then item
  else
    { item with relative := relpath item.file tempDir,
                output := pathJoin transDir (relpath item.file tempDir),
                translated := succ }

/-- Total translator invocations recorded in an `attemptUnit` result,
whether the unit loop returned normally or raised. -/
def attemptCalls : Except Nat (Bool × Nat) → Nat
  | Except.error c => c
  | Except.ok (_, c) => c

/-- The per-file loop of `TranslationFlow.translate_all` (main.py lines
307-322): no track records, but the same inner retry loop; a propagating
exception aborts the whole loop.  Only the call counter is relevant. -/
def simpleLoop (trOk : Nat → Bool) (can_retry : Bool) (retry_limit : Nat) :
    List String → Nat → Except Nat Nat
  | [], calls => Except.ok calls
  | _ :: rest, calls =>
      match attemptUnit trOk can_retry retry_limit calls with
      | Except.error c => Except.error c
      | Except.ok (_, c) => simpleLoop trOk can_retry retry_limit rest c

/-- The mutable state of the `TranslationFlow` orchestrator object
(main.py lines 178-191). -/
structure TranslationFlow where
  epub_path : String
  output_epub_path : String
  temp_dir : String
  original_temp_dir : String
  content_files : List String
  track : List TrackItem
  track_filename : String
  can_retry : Bool
  retry_limit : Nat
  retry_time : Nat
deriving Repr, DecidableEq

/-- `TranslationFlow.__init__` (main.py lines 178-191): both temp-dir
fields are `"temp_epub_data_" ++` the first 10 hex digits of the md5 of
the epub path (`hash` abstracts md5 hexdigest), `track` is empty,
`track_filename` is the empty string, retries are off with limit 1. -/
def TranslationFlow.init (hash : String → String) (epub output : String) : TranslationFlow :=
  { epub_path := epub
    output_epub_path := output
    temp_dir := "temp_epub_data_" ++ String.mk ((hash epub).data.take 10)
    original_temp_dir := "temp_epub_data_" ++ String.mk ((hash epub).data.take 10)
    content_files := []
    track := []
    track_filename := ""
    can_retry := false
    retry_limit := 1
    retry_time := 10 }

/-- `TranslationFlow.extract` (main.py lines 205-211): unzip into the
temp dir and record the walk of content files; `enum` is the list the
walk produces (`EpubExtractor.get_content_files`). -/
def TranslationFlow.extract (flow : TranslationFlow) (enum : List String) : TranslationFlow :=
  { flow with content_files := enum }

/-- `TranslationFlow.translate_all` (main.py lines 294-325): empty
`content_files` returns immediately; otherwise run the per-file retry
loop and, if nothing propagated, point `temp_dir` at the translated
tree (line 324).  The returned `Nat` counts translator invocations. -/
def TranslationFlow.translate_all (flow : TranslationFlow) (trOk : Nat → Bool) :
    Except TranslationFlow (TranslationFlow × Nat) :=
  if flow.content_files = [] then Except.ok (flow, 0)
  else
    match simpleLoop trOk flow.can_retry flow.retry_limit flow.content_files 0 with
    | Except.error _ => Except.error flow
    | Except.ok calls =>
        Except.ok ({ flow with temp_dir := flow.original_temp_dir ++ "_translated" }, calls)

/-! ## Quality heuristic of `GeminiCliTranslator._translate_content` -/

/-- `len(content.splitlines())` for content whose line breaks are `"\n"`
(the only break the pipeline itself writes): zero for the empty string,
otherwise the newline count, plus one when the text does not end in a
newline (`GeminiCliTranslator._check_content_lines_from_path`, main.py
lines 100-112). -/
def splitlinesCount (s : String) : Nat :=
  if s.data.isEmpty then 0
  else (s.data.countP (fun c => c = '\n')) +
    (if s.data.getLast? = some '\n' then 0 else 1)

/-- Python `round(9 * n / 10.0)`: round half to even.  For the values
reached here the float product `n * 0.90` rounds to the double nearest
`9n/10`, whose round-half-even equals that of the exact rational, so the
computation is done on naturals. -/
def pyRound90 (n : Nat) : Nat :=
  let p := 9 * n
  let q := p / 10
  let r := p % 10
  if r < 5 then q
  else if 5 < r then q + 1
  else if q % 2 = 0 then q else q + 1

/-- Language tags accepted by the leading-fence regex
`^(?:```(?:html|xhtml|xml|opf|ncx)\n)` (main.py line 72). -/
def fenceLangs : List String := ["html", "xhtml", "xml", "opf", "ncx"]

/-- Apply the first `re.sub` of main.py line 72: drop one leading
code-fence line, matched case-insensitively. -/
def stripLeadingFence (s : String) : String :=
  match fenceLangs.find? (fun lang => pyStartsWith (pyLower s) ("```" ++ lang ++ "\n")) with
  | some lang => strDrop s (strLen ("```" ++ lang ++ "\n"))
  | none => s

/-- Apply the second `re.sub`, `(\n)?```(\n)?$` (main.py line 73): remove
a trailing fence together with the newlines around it; the leftmost
match wins, so a surrounding-newlines match is preferred. -/
def stripTrailingFence (s : String) : String :=
  if pyEndsWith s "\n```\n" then strDropRight s 5
  else if pyEndsWith s "\n```" then strDropRight s 4
  else if pyEndsWith s "```\n" then strDropRight s 4
  else if pyEndsWith s "```" then strDropRight s 3
  else s

/-- `GeminiCliTranslator._translate_content` (main.py lines 42-98) for a
nominally completed subprocess: `procStdout = none` models a raising
`subprocess.run(check=True)` (process crash / non-zero exit); otherwise
the stdout is fence-stripped, an empty result raises, the result is
written to the output file, and its line count is compared against
`round(0.90 * input line count)` — falling short raises.  Every raised
error propagates to `translate_file` and from there into the retry
loop. -/
def translate_content (procStdout : Option String) (inputContent : String) :
    Except String String :=
  match procStdout with
  | none => Except.error "CalledProcessError"
  | some out =>
      let cleaned := stripTrailingFence (stripLeadingFence out)
      if cleaned.data.isEmpty then
        Except.error "O Gemini CLI não retornou nenhum conteúdo (stdout vazio)."
      else if splitlinesCount cleaned < pyRound90 (splitlinesCount inputContent) then
        Except.error "Arquivo traduzido de forma incorreta pelo Gemini CLI."
      else Except.ok cleaned

/-! ## Batch selection (`cli_main`, directory mode) -/

/-- The directory-mode selection of `cli_main` (main.py lines 430-447):
keep `filename` when it ends in `.epub` case-insensitively, does not
start with `[TRANSLATED]`, and the directory holds no file named
`"[TRANSLATED][" ++ targetLang.upper() ++ "]" ++ filename`.  The listing
is modelled as a list; selection of a name does not depend on the
iteration order of the `set`. -/
def batchSelect (allFiles : List String) (targetLang : String) : List String :=
  allFiles.filter (fun filename =>
    pyEndsWith (pyLower filename) ".epub" &&
    !(pyStartsWith filename "[TRANSLATED]") &&
    !(allFiles.contains ("[TRANSLATED][" ++ pyUpper targetLang ++ "]" ++ filename)))

/-! ## Cleanup control flow -/

/-- Which run artifacts exist on disk: the extracted original tree
`temp_epub_data_<hash>`, the translated tree
`temp_epub_data_<hash>_translated`, and the `<hash>.json` track file.
`tempIsTransl` records whether `self.temp_dir` has been repointed at the
translated tree (done only at the very end of `translate_all` /
`translate_all_from_track`, main.py lines 324 and 375). -/
structure RunState where
  origTree : Bool
  translTree : Bool
  trackFile : Bool
  tempIsTransl : Bool
deriving Repr, DecidableEq

/-- `TranslationFlow.cleanup` (main.py lines 388-401): remove
`self.temp_dir` if it exists, remove the track file if it exists, and
remove `self.original_temp_dir` when it differs from `self.temp_dir`
(which holds exactly when `temp_dir` was repointed) and exists.  When
`temp_dir` still names the original tree, no branch touches the
translated tree. -/
def cleanup (s : RunState) : RunState :=
  let s1 := if s.tempIsTransl then { s with translTree := false } else { s with origTree := false }
  let s2 := { s1 with trackFile := false }
  if s.tempIsTransl then { s2 with origTree := false } else s2

/-- Directory-mode per-archive exit handling in `cli_main` (main.py
lines 455-490): on success `flow.cleanup()` runs (lines 475, 478); on an
exception, `cleanup` runs only when `track == False` (line 486-487);
with `track == True` nothing is cleaned and the track file is preserved
(lines 488-490).  `s` is the disk state when control reaches the
handler. -/
def dirModeArchiveFinal (track succeeded : Bool) (s : RunState) : RunState :=
  if succeeded then cleanup s
  else if track then s else cleanup s

/-- Single-file-mode exit handling in `cli_main` (main.py lines
511-530): with `track` set, `cleanup()` is called inside the `try` right
after the chain (line 513), hence only on success; the `finally`
(lines 527-530) calls `cleanup()` only when `track == False`, on success
and failure alike. -/
def fileModeFinal (track succeeded : Bool) (s : RunState) : RunState :=
  if track then (if succeeded then cleanup s else s)
  else cleanup s

/-! ## Helper lemmas -/

@[simp]
lemma countUntranslated_nil : countUntranslated [] = 0 := rfl

lemma countUntranslated_cons (item : TrackItem) (rest : List TrackItem) :
    countUntranslated (item :: rest) =
      (if item.translated then 0 else 1) + countUntranslated rest := by
  by_cases h : item.translated
  · simp [countUntranslated, List.filter_cons, h]
  · simp [countUntranslated, List.filter_cons, h]
    omega

lemma countUntranslated_add_translated (track : List TrackItem) :
    countUntranslated track + (track.filter (fun it => it.translated)).length =
      track.length := by
  induction track with
  | nil => rfl
  | cons item rest ih =>
      by_cases h : item.translated <;>
        simp [countUntranslated_cons, h, List.filter_cons] <;> omega

lemma attemptUnit_success (cr : Bool) (t calls : Nat) :
    attemptUnit (fun _ => true) cr (t + 1) calls = Except.ok (true, calls + 1) := by
  simp [attemptUnit]

lemma attemptUnit_fail_retry (L : Nat) : ∀ calls : Nat,
    attemptUnit (fun _ => false) true L calls = Except.ok (false, calls + L) := by
  induction L with
  | zero => intro calls; rfl
  | succ t ih =>
      intro calls
      rw [attemptUnit, if_neg (by simp), if_pos rfl, ih (calls + 1)]
      congr 2
      omega

lemma attemptUnit_fail_noretry (t calls : Nat) :
    attemptUnit (fun _ => false) false (t + 1) calls = Except.error (calls + 1) := by
  simp [attemptUnit]

lemma attemptUnit_calls_le (trOk : Nat → Bool) (cr : Bool) (L : Nat) : ∀ calls : Nat,
    attemptCalls (attemptUnit trOk cr L calls) ≤ calls + L := by
  induction L with
  | zero => intro calls; simp [attemptUnit, attemptCalls]
  | succ t ih =>
      intro calls
      rw [attemptUnit]
      by_cases h : trOk calls
      · simp [h, attemptCalls]
      · rw [if_neg h]
        by_cases hcr : cr
        · rw [if_pos hcr]
          calc attemptCalls (attemptUnit trOk cr t (calls + 1)) ≤ (calls + 1) + t := ih _
            _ = calls + (t + 1) := by omega
        · simp [hcr, attemptCalls]

lemma translateLoop_allSuccess (cr : Bool) (t : Nat) (d td : String)
    (rest : List TrackItem) : ∀ (done : List TrackItem) (calls : Nat)
    (persists : List (List TrackItem)),
    ∃ ps, translateLoop (fun _ => true) cr (t + 1) d td done rest calls persists =
      Except.ok ⟨done ++ rest.map (processedItem d td true),
        calls + countUntranslated rest, ps⟩ := by
  induction rest with
  | nil =>
      intro done calls persists
      exact ⟨persists, by simp [translateLoop]⟩
  | cons item rest ih =>
      intro done calls persists
      by_cases hit : item.translated
      · obtain ⟨ps, hps⟩ := ih (done ++ [item]) calls persists
        refine ⟨ps, ?_⟩
        rw [translateLoop, if_pos hit, hps]
        simp [processedItem, hit, countUntranslated_cons]
      · obtain ⟨ps, hps⟩ := ih
          (done ++ [{ item with
            relative := relpath item.file d,
            output := pathJoin td (relpath item.file d),
            translated := true }]) (calls + 1)
          (persists ++ [done ++ { item with
            relative := relpath item.file d,
            output := pathJoin td (relpath item.file d),
            translated := true } :: rest])
        refine ⟨ps, ?_⟩
        rw [translateLoop, if_neg hit]
        simp only [attemptUnit_success]
        rw [hps]
        congr 1
        simp [processedItem, hit, countUntranslated_cons]
        omega

lemma translateLoop_allFail_retry (L : Nat) (d td : String)
    (rest : List TrackItem) : ∀ (done : List TrackItem) (calls : Nat)
    (persists : List (List TrackItem)),
    ∃ ps, translateLoop (fun _ => false) true L d td done rest calls persists =
      Except.ok ⟨done ++ rest.map (processedItem d td false),
        calls + L * countUntranslated rest, ps⟩ := by
  induction rest with
  | nil =>
      intro done calls persists
      exact ⟨persists, by simp [translateLoop]⟩
  | cons item rest ih =>
      intro done calls persists
      by_cases hit : item.translated
      · obtain ⟨ps, hps⟩ := ih (done ++ [item]) calls persists
        refine ⟨ps, ?_⟩
        rw [translateLoop, if_pos hit, hps]
        simp [processedItem, hit, countUntranslated_cons]
      · obtain ⟨ps, hps⟩ := ih
          (done ++ [{ item with
            relative := relpath item.file d,
            output := pathJoin td (relpath item.file d),
            translated := false }]) (calls + L)
          (persists ++ [done ++ { item with
            relative := relpath item.file d,
            output := pathJoin td (relpath item.file d),
            translated := false } :: rest])
        refine ⟨ps, ?_⟩
        rw [translateLoop, if_neg hit]
        simp only [attemptUnit_fail_retry]
        rw [hps]
        simp only [Except.ok.injEq, LoopResult.mk.injEq]
        refine ⟨by simp [processedItem, hit], ?_, trivial⟩
        rw [countUntranslated_cons, if_neg hit]
        ring

lemma translateLoop_ok_spec (trOk : Nat → Bool) (cr : Bool) (L : Nat) (d td : String)
    (rest : List TrackItem) : ∀ (done : List TrackItem) (calls : Nat)
    (persists : List (List TrackItem)) (r : LoopResult),
    translateLoop trOk cr L d td done rest calls persists = Except.ok r →
    (∃ tail, r.track = done ++ tail ∧ tail.length = rest.length) ∧
    (∃ ext, r.persists = persists ++ ext) ∧
    r.persists.length = persists.length + countUntranslated rest ∧
    (∀ s ∈ r.persists.drop persists.length, ∃ k, 0 < k ∧ k ≤ rest.length ∧
      s = r.track.take (done.length + k) ++ rest.drop k) ∧
    (0 < countUntranslated rest → r.persists.getLast? = some r.track) ∧
    (countUntranslated rest = 0 → r.persists = persists ∧ r.track = done ++ rest) := by
  induction rest with
  | nil =>
      intro done calls persists r h
      rw [translateLoop] at h
      injection h with h
      subst h
      refine ⟨⟨[], by simp, rfl⟩, ⟨[], by simp⟩, by simp, ?_, by simp, ?_⟩
      · intro s hs
        simp [List.drop_length] at hs
      · intro _
        exact ⟨rfl, by simp⟩
  | cons item rest ih =>
      intro done calls persists r h
      rw [translateLoop] at h
      by_cases hit : item.translated
      · rw [if_pos hit] at h
        obtain ⟨⟨tail, htr, hlen⟩, ⟨ext, hext⟩, hplen, hsnap, hlast, hzero⟩ :=
          ih (done ++ [item]) calls persists r h
        refine ⟨⟨item :: tail, by simpa using htr, by simp [hlen]⟩, ⟨ext, hext⟩,
          ?_, ?_, ?_, ?_⟩
        · simpa [countUntranslated_cons, hit] using hplen
        · intro s hs
          obtain ⟨k, hk0, hkle, hs⟩ := hsnap s hs
          refine ⟨k + 1, by omega, by simp; omega, ?_⟩
          rw [hs]
          have hidx : done.length + (k + 1) = (done ++ [item]).length + k := by
            simp only [List.length_append, List.length_cons, List.length_nil]
            omega
          rw [hidx]
          rfl
        · intro h0
          apply hlast
          have := countUntranslated_cons item rest
          rw [if_pos hit] at this
          omega
        · intro h0
          have h0' : countUntranslated rest = 0 := by
            have := countUntranslated_cons item rest
            rw [if_pos hit] at this
            omega
          obtain ⟨hp, ht⟩ := hzero h0'
          exact ⟨hp, by simpa using ht⟩
      · rw [if_neg hit] at h
        rcases hau : attemptUnit trOk cr L calls with c | p
        · rw [hau] at h
          exact absurd h (by simp)
        · obtain ⟨succ, calls1⟩ := p
          rw [hau] at h
          simp only at h
          obtain ⟨⟨tail, htr, hlen⟩, ⟨ext, hext⟩, hplen, hsnap, hlast, hzero⟩ :=
            ih (done ++ [{ item with
              relative := relpath item.file d,
              output := pathJoin td (relpath item.file d),
              translated := succ }]) calls1
              (persists ++ [done ++ { item with
                relative := relpath item.file d,
                output := pathJoin td (relpath item.file d),
                translated := succ } :: rest]) r h
          set item2 : TrackItem := { item with
            relative := relpath item.file d,
            output := pathJoin td (relpath item.file d),
            translated := succ } with hitem2
          have htake : r.track.take (done.length + 1) = done ++ [item2] := by
            rw [htr]
            have hi1 : done.length + 1 = (done ++ [item2]).length := by simp
            rw [hi1, List.take_left]
          have hdrop : r.persists.drop persists.length = (done ++ item2 :: rest) :: ext := by
            rw [hext, List.append_assoc, List.drop_left]
            rfl
          refine ⟨⟨item2 :: tail, by simpa using htr, by simp [hlen]⟩,
            ⟨(done ++ item2 :: rest) :: ext, by simpa using hext⟩, ?_, ?_, ?_, ?_⟩
          · simp only [List.length_append, List.length_cons, List.length_nil] at hplen
            rw [countUntranslated_cons, if_neg hit]
            omega
          · intro s hs
            rw [hdrop] at hs
            rcases List.mem_cons.mp hs with hs | hs
            · refine ⟨1, one_pos, by simp, ?_⟩
              rw [hs, htake]
              simp
            · have hs' : s ∈ r.persists.drop (persists.length + 1) := by
                have hdd : r.persists.drop (persists.length + 1) = ext := by
                  rw [hext, List.append_assoc]
                  have hl1 : persists.length + 1 = (persists ++ [done ++ item2 :: rest]).length := by
                    simp
                  rw [← List.append_assoc, hl1, List.drop_left]
                rw [hdd]
                exact hs
              have hs'' : s ∈ r.persists.drop (persists ++ [done ++ item2 :: rest]).length := by
                simpa using hs'
              obtain ⟨k, hk0, hkle, hskk⟩ := hsnap s hs''
              refine ⟨k + 1, by omega, by simp; omega, ?_⟩
              rw [hskk]
              have hidx : done.length + (k + 1) = (done ++ [item2]).length + k := by
                simp only [List.length_append, List.length_cons, List.length_nil]
                omega
              rw [hidx]
              rfl
          · intro _
            by_cases hz : countUntranslated rest = 0
            · obtain ⟨hp, ht⟩ := hzero hz
              rw [hp, List.getLast?_concat, ht]
              simp
            · exact hlast (Nat.pos_of_ne_zero hz)
          · intro h0
            rw [countUntranslated_cons, if_neg hit] at h0
            omega

lemma processedItem_translated_true (d td : String) (it : TrackItem) :
    (processedItem d td true it).translated = true := by
  by_cases h : it.translated <;> simp [processedItem, h]

lemma processedItem_translated_of_untranslated (d td : String) (succ : Bool)
    (it : TrackItem) (h : it.translated = false) :
    (processedItem d td succ it).translated = succ := by
  simp [processedItem, h]

/-! ## Claim theorems -/

/-- C1, counterexample: with retries enabled (`can_retry = True`),
`retry_limit = 1` and a translator failing on every call, a track of two
untranslated units does NOT abort on the first unit's exhaustion: the
loop returns normally (no propagating error), the second unit is
attempted too (2 translator calls in total), both units end with
`translated = false`, and the track file is persisted after each of the
two units.  This refutes the claim that exhaustion propagates a fatal
error immediately and that no subsequent unit is attempted. -/
theorem C1_counterexample :
    translate_all_from_track (fun _ => false) true 1 "d" "d"
      [⟨"d/f0.html", "", "", false⟩, ⟨"d/f1.html", "", "", false⟩] =
    Except.ok ⟨[⟨"d/f0.html", "f0.html", "d_translated/f0.html", false⟩,
                ⟨"d/f1.html", "f1.html", "d_translated/f1.html", false⟩], 2,
      [[⟨"d/f0.html", "f0.html", "d_translated/f0.html", false⟩,
        ⟨"d/f1.html", "", "", false⟩],
       [⟨"d/f0.html", "f0.html", "d_translated/f0.html", false⟩,
        ⟨"d/f1.html", "f1.html", "d_translated/f1.html", false⟩]]⟩ := by
  rfl

/-- C1 (amended): with retries enabled, exhausting a unit's retry budget
is NOT immediately fatal: the unit is merely left with
`translated = false` (no `exhausted` marking exists), the loop carries on
with every subsequent unit (with an always-failing translator each of
the `countUntranslated` units consumes its full budget of `L` calls),
and the run's failure surfaces only later, at the completeness gate:
`package` on the resulting track raises.  (Only with retries disabled
does the first failure raise immediately.) -/
theorem C1_exhaustion_continues_until_package (L : Nat) (d od fname : String)
    (track : List TrackItem) (hsome : ∃ it ∈ track, it.translated = false) :
    ∃ r : LoopResult,
      translate_all_from_track (fun _ => false) true L d od track = Except.ok r ∧
      r.calls = L * countUntranslated track ∧
      r.track = track.map (processedItem d (od ++ "_translated") false) ∧
      package (fun f => if f = fname then some r.track else none) fname =
        Except.error "Arquivo de track incompleto, impossível realizar empacotamento!" := by
  obtain ⟨it, hmem, hit⟩ := hsome
  have hne : track ≠ [] := by
    intro hnil
    rw [hnil] at hmem
    exact absurd hmem (List.not_mem_nil it)
  obtain ⟨ps, hps⟩ := translateLoop_allFail_retry L d (od ++ "_translated") track [] 0 []
  refine ⟨⟨track.map (processedItem d (od ++ "_translated") false),
    L * countUntranslated track, ps⟩, ?_, rfl, rfl, ?_⟩
  · rw [translate_all_from_track, if_neg hne, hps]
    simp
  · have hbad : (track.map (processedItem d (od ++ "_translated") false)).all
        (fun x => x.translated) = false := by
      rw [Bool.eq_false_iff]
      intro hall
      rw [List.all_eq_true] at hall
      have := hall (processedItem d (od ++ "_translated") false it) (List.mem_map_of_mem _ hmem)
      rw [processedItem_translated_of_untranslated d (od ++ "_translated") false it hit] at this
      exact Bool.false_ne_true this
    rw [package, isTrackComplete]
    rw [if_pos rfl]
    rw [if_neg]
    simp only [hbad]
    exact Bool.false_ne_true

/-- C1, witness for the amended theorem at a concrete input. -/
theorem C1_amended_witness :
    ∃ r : LoopResult,
      translate_all_from_track (fun _ => false) true 2 "d" "d"
        [⟨"d/f0.html", "", "", false⟩] = Except.ok r ∧
      r.calls = 2 * countUntranslated [⟨"d/f0.html", "", "", false⟩] ∧
      r.track = [(⟨"d/f0.html", "", "", false⟩ : TrackItem)].map
        (processedItem "d" ("d" ++ "_translated") false) ∧
      package (fun f => if f = "t.json" then some r.track else none) "t.json" =
        Except.error "Arquivo de track incompleto, impossível realizar empacotamento!" :=
  C1_exhaustion_continues_until_package 2 "d" "d" "t.json"
    [⟨"d/f0.html", "", "", false⟩] ⟨⟨"d/f0.html", "", "", false⟩, by decide, rfl⟩

/-- C2: reconciliation in `setTrack` when a track file exists: a count
mismatch between the fresh enumeration and the loaded records deletes
the file and rebuilds both the in-memory track and the file from the
current enumeration with every `translated` flag false; matching counts
rewrite each record's `file` field positionally to the fresh enumeration
while preserving `translated`, `relative` and `output` from the loaded
checkpoint (and leave the file on disk unchanged). -/
theorem C2_reconciliation (tr : List TrackItem) (enumFiles : List String) :
    (enumFiles.length ≠ tr.length →
      setTrack (some tr) enumFiles =
        { mem := buildTrack enumFiles, disk := buildTrack enumFiles } ∧
      (setTrack (some tr) enumFiles).mem.map (fun it => it.file) = enumFiles ∧
      ∀ it ∈ (setTrack (some tr) enumFiles).mem, it.translated = false) ∧
    (enumFiles.length = tr.length →
      (setTrack (some tr) enumFiles).mem.length = tr.length ∧
      (setTrack (some tr) enumFiles).disk = tr ∧
      ∀ (i : Nat) (hi : i < (setTrack (some tr) enumFiles).mem.length)
        (hi2 : i < tr.length) (hi3 : i < enumFiles.length),
        ((setTrack (some tr) enumFiles).mem.get ⟨i, hi⟩).file =
            enumFiles.get ⟨i, hi3⟩ ∧
        ((setTrack (some tr) enumFiles).mem.get ⟨i, hi⟩).translated =
            (tr.get ⟨i, hi2⟩).translated ∧
        ((setTrack (some tr) enumFiles).mem.get ⟨i, hi⟩).relative =
            (tr.get ⟨i, hi2⟩).relative ∧
        ((setTrack (some tr) enumFiles).mem.get ⟨i, hi⟩).output =
            (tr.get ⟨i, hi2⟩).output) := by
  constructor
  · intro hne
    have hset : setTrack (some tr) enumFiles =
        { mem := buildTrack enumFiles, disk := buildTrack enumFiles } := by
      simp [setTrack, hne]
    refine ⟨hset, ?_, ?_⟩
    · rw [hset]
      simp only [buildTrack, List.map_map]
      exact List.map_id enumFiles
    · intro it hmem
      rw [hset] at hmem
      simp only [buildTrack, List.mem_map] at hmem
      obtain ⟨f, _, hf⟩ := hmem
      rw [← hf]
  · intro heq
    have hcond : ¬ enumFiles.length ≠ tr.length := by omega
    refine ⟨?_, by simp [setTrack, hcond], ?_⟩
    · simp [setTrack, hcond, List.length_zipWith, heq]
    · intro i hi hi2 hi3
      have hmem : (setTrack (some tr) enumFiles).mem =
          tr.zipWith (fun item f => { item with file := f }) enumFiles := by
        simp [setTrack, hcond]
      simp only [List.get_eq_getElem, hmem, List.getElem_zipWith]
      exact ⟨trivial, trivial, trivial, trivial⟩

/-- C2, witness: a two-record checkpoint whose count matches the fresh
enumeration keeps flags and gets fresh paths; a one-record checkpoint
against a two-file enumeration is rebuilt from scratch. -/
theorem C2_witness :
    ((setTrack (some [⟨"old/a", "r", "o", true⟩]) ["new/a", "new/b"]).mem.map
      (fun it => it.file) = ["new/a", "new/b"]) ∧
    ((setTrack (some [⟨"old/a", "r", "o", true⟩, ⟨"old/b", "", "", false⟩])
        ["new/a", "new/b"]).mem.get ⟨0, by decide⟩).file = "new/a" ∧
    ((setTrack (some [⟨"old/a", "r", "o", true⟩, ⟨"old/b", "", "", false⟩])
        ["new/a", "new/b"]).mem.get ⟨0, by decide⟩).translated = true := by
  refine ⟨((C2_reconciliation [⟨"old/a", "r", "o", true⟩] ["new/a", "new/b"]).1
    (by decide)).2.1, ?_, ?_⟩
  · exact (((C2_reconciliation [⟨"old/a", "r", "o", true⟩, ⟨"old/b", "", "", false⟩]
      ["new/a", "new/b"]).2 (by decide)) |>.2.2 0 (by decide) (by decide) (by decide)).1
  · exact (((C2_reconciliation [⟨"old/a", "r", "o", true⟩, ⟨"old/b", "", "", false⟩]
      ["new/a", "new/b"]).2 (by decide)) |>.2.2 0 (by decide) (by decide) (by decide)).2.1

/-- C3: the completeness gate: with a track file present, `package`
raises whenever some record has `translated = false` and proceeds to
repackaging whenever every record has `translated = true`. -/
theorem C3_completeness_gate (fs : String → Option (List TrackItem)) (fname : String)
    (items : List TrackItem) (hfs : fs fname = some items) :
    ((∃ it ∈ items, it.translated = false) →
      package fs fname =
        Except.error "Arquivo de track incompleto, impossível realizar empacotamento!") ∧
    ((∀ it ∈ items, it.translated = true) → package fs fname = Except.ok ()) := by
  rw [package, isTrackComplete, hfs]
  constructor
  · rintro ⟨it, hmem, hf⟩
    rw [if_neg]
    intro hall
    rw [List.all_eq_true] at hall
    have := hall it hmem
    rw [hf] at this
    exact Bool.false_ne_true this
  · intro hall
    rw [if_pos]
    rw [List.all_eq_true]
    exact hall

/-- C3, witness: the gate at two concrete checkpoints, one incomplete
and one complete. -/
theorem C3_witness :
    package (fun _ => some [⟨"f", "", "", true⟩, ⟨"g", "", "", false⟩]) "t.json" =
      Except.error "Arquivo de track incompleto, impossível realizar empacotamento!" ∧
    package (fun _ => some [⟨"f", "", "", true⟩]) "t.json" = Except.ok () := by
  constructor
  · exact (C3_completeness_gate (fun _ => some [⟨"f", "", "", true⟩, ⟨"g", "", "", false⟩])
      "t.json" [⟨"f", "", "", true⟩, ⟨"g", "", "", false⟩] rfl).1
      ⟨⟨"g", "", "", false⟩, by decide, rfl⟩
  · exact (C3_completeness_gate (fun _ => some [⟨"f", "", "", true⟩])
      "t.json" [⟨"f", "", "", true⟩] rfl).2 (by decide)

lemma translate_all_ok_track_filename (flow : TranslationFlow) (trOk : Nat → Bool)
    (flow1 : TranslationFlow) (calls : Nat)
    (h : TranslationFlow.translate_all flow trOk = Except.ok (flow1, calls)) :
    flow1.track_filename = flow.track_filename := by
  rw [TranslationFlow.translate_all] at h
  by_cases he : flow.content_files = []
  · rw [if_pos he] at h
    injection h with h
    injection h with h1 h2
    rw [← h1]
  · rw [if_neg he] at h
    rcases hsl : simpleLoop trOk flow.can_retry flow.retry_limit flow.content_files 0 with c | cs
    · rw [hsl] at h
      exact absurd h (by simp)
    · rw [hsl] at h
      injection h with h
      injection h with h1 h2
      rw [← h1]

/-- C4: in a run where tracking was never set up, `package` always
raises: `__init__` leaves `track_filename` as the empty string, the
untracked pipeline (`extract` then `translate_all`) never touches it, no
file exists at the empty path, so `isTrackComplete` returns false and
`package` raises — regardless of the enumeration and of how many units
were successfully transformed. -/
theorem C4_untracked_run_never_packages (hash : String → String) (ep op : String)
    (enum : List String) (trOk : Nat → Bool)
    (fs : String → Option (List TrackItem)) (hfs : fs "" = none)
    (flow1 : TranslationFlow) (calls : Nat)
    (hrun : TranslationFlow.translate_all
      (TranslationFlow.extract (TranslationFlow.init hash ep op) enum) trOk =
        Except.ok (flow1, calls)) :
    flow1.track_filename = "" ∧
    isTrackComplete fs flow1.track_filename = false ∧
    package fs flow1.track_filename =
      Except.error "Arquivo de track incompleto, impossível realizar empacotamento!" := by
  have htf : flow1.track_filename = "" :=
    translate_all_ok_track_filename _ trOk flow1 calls hrun
  have hcomplete : isTrackComplete fs flow1.track_filename = false := by
    rw [htf, isTrackComplete, hfs]
  refine ⟨htf, hcomplete, ?_⟩
  rw [package, if_neg]
  rw [hcomplete]
  exact Bool.false_ne_true

/-- C4, witness: a concrete untracked single-file run with one unit and
an always-succeeding translator still ends with `package` raising. -/
theorem C4_witness :
    isTrackComplete (fun _ => none) "" = false ∧
    package (fun _ => none) "" =
      Except.error "Arquivo de track incompleto, impossível realizar empacotamento!" := by
  have h := C4_untracked_run_never_packages (fun _ => "") "b.epub" "o.epub"
    ["t/f.html"] (fun _ => true) (fun _ => none) rfl
    { epub_path := "b.epub"
      output_epub_path := "o.epub"
      temp_dir := "temp_epub_data__translated"
      original_temp_dir := "temp_epub_data_"
      content_files := ["t/f.html"]
      track := []
      track_filename := ""
      can_retry := false
      retry_limit := 1
      retry_time := 10 } 1 (by rfl)
  exact ⟨h.2.1, h.2.2⟩

/-- C5: resume correctness: on a checkpoint of N records of which K are
already `translated`, with every transformation attempt succeeding (and
a positive retry limit), `translate_all_from_track` returns normally,
invokes the translator exactly N − K times (stated additively:
`calls + K = N`), and leaves all N records `translated = true`. -/
theorem C5_resume_processes_exactly_remaining (cr : Bool) (t : Nat) (d od : String)
    (track : List TrackItem) :
    ∃ r : LoopResult,
      translate_all_from_track (fun _ => true) cr (t + 1) d od track = Except.ok r ∧
      r.calls + (track.filter (fun it => it.translated)).length = track.length ∧
      r.track.length = track.length ∧
      ∀ it ∈ r.track, it.translated = true := by
  by_cases hne : track = []
  · subst hne
    exact ⟨⟨[], 0, []⟩, rfl, rfl, rfl, by simp⟩
  · obtain ⟨ps, hps⟩ :=
      translateLoop_allSuccess cr t d (od ++ "_translated") track [] 0 []
    refine ⟨⟨track.map (processedItem d (od ++ "_translated") true),
      countUntranslated track, ps⟩, ?_, ?_, by simp, ?_⟩
    · rw [translate_all_from_track, if_neg hne, hps]
      simp
    · exact countUntranslated_add_translated track
    · intro it hmem
      simp only [List.mem_map] at hmem
      obtain ⟨x, _, hx⟩ := hmem
      rw [← hx]
      exact processedItem_translated_true d (od ++ "_translated") x

/-- C6: the retry bound: with retries enabled and limit `L ≥ 1`, an
always-failing translator is attempted exactly `L` times for the unit
(the per-unit loop then reports exhaustion by returning without a
success), and for ANY translator and settings, a unit's loop never makes
more than `L` attempts. -/
theorem C6_retry_bound (L calls : Nat) (hL : 1 ≤ L) (trOk : Nat → Bool) (cr : Bool) :
    attemptUnit (fun _ => false) true L calls = Except.ok (false, calls + L) ∧
    attemptCalls (attemptUnit trOk cr L calls) ≤ calls + L := by
  have _ := hL
  exact ⟨attemptUnit_fail_retry L calls, attemptUnit_calls_le trOk cr L calls⟩

/-- C6, witness: limit 3, always failing, starting from call 0: exactly
3 attempts, then exhaustion. -/
theorem C6_witness :
    attemptUnit (fun _ => false) true 3 0 = Except.ok (false, 0 + 3) ∧
    attemptCalls (attemptUnit (fun _ => false) true 3 0) ≤ 0 + 3 :=
  C6_retry_bound 3 0 (by decide) (fun _ => false) true

lemma pyRound90_le_of_ninety_percent (n k : Nat) (h : 9 * n ≤ 10 * k) :
    pyRound90 n ≤ k := by
  have hdm := Nat.div_add_mod (9 * n) 10
  have hlt : 9 * n % 10 < 10 := Nat.mod_lt _ (by omega)
  rw [pyRound90]
  split_ifs <;> omega

/-- C7, counterexample: a 5-line source with a 4-line produced output is
below 90% (4/5 = 80%), yet the call is accepted: the code compares
against Python `round(5 * 0.90) = round(4.5) = 4` (round half to even),
and `4 < 4` is false, so no error is raised.  This refutes the claim
that every output under 90% of the source's line count is treated as a
failure. -/
theorem C7_counterexample :
    translate_content (some "a\nb\nc\nd") "a\nb\nc\nd\ne" = Except.ok "a\nb\nc\nd" ∧
    splitlinesCount "a\nb\nc\nd" * 10 < splitlinesCount "a\nb\nc\nd\ne" * 9 :=
  ⟨rfl, by decide⟩

/-- C7 (amended): for a nominally successful call whose fence-stripped
output is non-empty, the quality check fails exactly when the output's
line count is below `round(0.90 × source line count)` with Python
round-half-to-even semantics — a threshold that can sit below 90%
(when `0.9·n` has fractional part ½ rounded down to even); any output
with at least 90% of the source's line count is always accepted. -/
theorem C7_quality_threshold_is_rounded (stdout inputContent : String)
    (hne : (stripTrailingFence (stripLeadingFence stdout)).data.isEmpty = false) :
    (translate_content (some stdout) inputContent =
        Except.error "Arquivo traduzido de forma incorreta pelo Gemini CLI." ↔
      splitlinesCount (stripTrailingFence (stripLeadingFence stdout)) <
        pyRound90 (splitlinesCount inputContent)) ∧
    (9 * splitlinesCount inputContent ≤
        10 * splitlinesCount (stripTrailingFence (stripLeadingFence stdout)) →
      translate_content (some stdout) inputContent =
        Except.ok (stripTrailingFence (stripLeadingFence stdout))) := by
  rw [translate_content]
  simp only [hne, Bool.false_eq_true, if_false]
  constructor
  · by_cases hlt : splitlinesCount (stripTrailingFence (stripLeadingFence stdout)) <
        pyRound90 (splitlinesCount inputContent)
    · rw [if_pos hlt]
      simp [hlt]
    · rw [if_neg hlt]
      simp [hlt]
  · intro h90
    rw [if_neg]
    intro hlt
    exact absurd (pyRound90_le_of_ninety_percent _ _ h90) (by omega)

/-- C7, witness for the amended theorem: a 2-line output of a 2-line
source is accepted, and the failure condition evaluates accordingly. -/
theorem C7_amended_witness :
    translate_content (some "x\ny") "a\nb" = Except.ok "x\ny" :=
  (C7_quality_threshold_is_rounded "x\ny" "a\nb" (by decide)).2 (by decide)

/-- C8: in every normally returning tracked loop, the full record list is
written to the track file once per processed (not-yet-translated) unit —
not only at run end: the number of persisted snapshots equals the number
of records that needed processing, every snapshot has the full record
count, every snapshot agrees with the final in-memory track on the first
`k` records (the units handled so far, including the just-finished
unit's `translated` flag) and with the loaded track on the rest, and the
last snapshot is exactly the final track, so a crash loses at most the
one in-flight unit. -/
theorem C8_full_list_persisted_after_each_unit (trOk : Nat → Bool) (cr : Bool)
    (L : Nat) (d od : String) (track : List TrackItem) (r : LoopResult)
    (h : translate_all_from_track trOk cr L d od track = Except.ok r) :
    r.persists.length = countUntranslated track ∧
    (∀ s ∈ r.persists, s.length = track.length ∧
      ∃ k, 0 < k ∧ k ≤ track.length ∧ s = r.track.take k ++ track.drop k) ∧
    (0 < countUntranslated track → r.persists.getLast? = some r.track) := by
  by_cases hne : track = []
  · subst hne
    rw [translate_all_from_track, if_pos rfl] at h
    injection h with h
    subst h
    exact ⟨rfl, by simp, by simp⟩
  · rw [translate_all_from_track, if_neg hne] at h
    obtain ⟨⟨tail, htr, hlen⟩, ⟨ext, hext⟩, hplen, hsnap, hlast, _⟩ :=
      translateLoop_ok_spec trOk cr L d (od ++ "_translated") track [] 0 [] r h
    have hrtr : r.track.length = track.length := by
      rw [htr]
      simpa using hlen
    refine ⟨by simpa using hplen, ?_, by simpa using hlast⟩
    intro s hs
    have hs0 : s ∈ r.persists.drop 0 := by simpa using hs
    obtain ⟨k, hk0, hkle, hsk⟩ := hsnap s (by simpa using hs0)
    refine ⟨?_, k, hk0, hkle, by simpa using hsk⟩
    have hslen : s.length = (r.track.take k).length + (track.drop k).length := by
      rw [hsk, List.length_append]
      simp
    rw [hslen, List.length_take, List.length_drop, hrtr]
    omega

/-- C8, witness: a two-record track with one record already translated
and a succeeding translator: one snapshot, full length, equal to the
final track. -/
theorem C8_witness :
    (LoopResult.persists ⟨[⟨"d/a.html", "", "", true⟩,
        ⟨"d/b.html", "b.html", "d_translated/b.html", true⟩], 1,
      [[⟨"d/a.html", "", "", true⟩,
        ⟨"d/b.html", "b.html", "d_translated/b.html", true⟩]]⟩).length =
      countUntranslated [⟨"d/a.html", "", "", true⟩, ⟨"d/b.html", "", "", false⟩] ∧
    (∀ s ∈ (LoopResult.persists ⟨[⟨"d/a.html", "", "", true⟩,
        ⟨"d/b.html", "b.html", "d_translated/b.html", true⟩], 1,
      [[⟨"d/a.html", "", "", true⟩,
        ⟨"d/b.html", "b.html", "d_translated/b.html", true⟩]]⟩),
      s.length = [(⟨"d/a.html", "", "", true⟩ : TrackItem),
        ⟨"d/b.html", "", "", false⟩].length ∧
      ∃ k, 0 < k ∧ k ≤ [(⟨"d/a.html", "", "", true⟩ : TrackItem),
        ⟨"d/b.html", "", "", false⟩].length ∧
      s = (LoopResult.track ⟨[⟨"d/a.html", "", "", true⟩,
          ⟨"d/b.html", "b.html", "d_translated/b.html", true⟩], 1,
        [[⟨"d/a.html", "", "", true⟩,
          ⟨"d/b.html", "b.html", "d_translated/b.html", true⟩]]⟩).take k ++
        [(⟨"d/a.html", "", "", true⟩ : TrackItem),
          ⟨"d/b.html", "", "", false⟩].drop k) ∧
    (0 < countUntranslated [(⟨"d/a.html", "", "", true⟩ : TrackItem),
        ⟨"d/b.html", "", "", false⟩] →
      (LoopResult.persists ⟨[⟨"d/a.html", "", "", true⟩,
          ⟨"d/b.html", "b.html", "d_translated/b.html", true⟩], 1,
        [[⟨"d/a.html", "", "", true⟩,
          ⟨"d/b.html", "b.html", "d_translated/b.html", true⟩]]⟩).getLast? =
        some (LoopResult.track ⟨[⟨"d/a.html", "", "", true⟩,
          ⟨"d/b.html", "b.html", "d_translated/b.html", true⟩], 1,
        [[⟨"d/a.html", "", "", true⟩,
          ⟨"d/b.html", "b.html", "d_translated/b.html", true⟩]]⟩)) :=
  C8_full_list_persisted_after_each_unit (fun _ => true) false 1 "d" "d"
    [⟨"d/a.html", "", "", true⟩, ⟨"d/b.html", "", "", false⟩] _ (by rfl)

/-- C9: directory-mode selection: a file is selected iff it is listed,
its lower-cased name ends in `.epub`, it does not start with
`[TRANSLATED]`, and no sibling named
`"[TRANSLATED][" ++ upper(target) ++ "]" ++ name` is listed; in
particular a directory with `book.epub` and
`[TRANSLATED][PT-BR]book.epub` yields zero selections for target
`pt-br`, and removing the translated file makes `book.epub` selected. -/
theorem C9_batch_skip_rule (allFiles : List String) (target f : String) :
    (f ∈ batchSelect allFiles target ↔
      f ∈ allFiles ∧ pyEndsWith (pyLower f) ".epub" = true ∧
      pyStartsWith f "[TRANSLATED]" = false ∧
      ("[TRANSLATED][" ++ pyUpper target ++ "]" ++ f) ∉ allFiles) ∧
    batchSelect ["book.epub", "[TRANSLATED][PT-BR]book.epub"] "pt-br" = [] ∧
    batchSelect ["book.epub"] "pt-br" = ["book.epub"] := by
  refine ⟨?_, by decide, by decide⟩
  rw [batchSelect, List.mem_filter]
  constructor
  · rintro ⟨hmem, hp⟩
    simp only [Bool.and_eq_true, Bool.not_eq_true'] at hp
    obtain ⟨⟨h1, h2⟩, h3⟩ := hp
    refine ⟨hmem, h1, h2, ?_⟩
    intro hin
    have hc : allFiles.contains ("[TRANSLATED][" ++ pyUpper target ++ "]" ++ f) = true :=
      List.elem_iff.mpr hin
    rw [hc] at h3
    exact absurd h3 (by simp)
  · rintro ⟨hmem, h1, h2, h3⟩
    refine ⟨hmem, ?_⟩
    simp only [Bool.and_eq_true, Bool.not_eq_true']
    refine ⟨⟨h1, h2⟩, ?_⟩
    rw [Bool.eq_false_iff]
    intro hc
    exact h3 (List.elem_iff.mp hc)

/-- C10, counterexample: on a fatal failure with tracking requested
(directory mode), no cleanup runs at all: with both working trees and
the track file on disk, the state after the handler is unchanged — the
temporary working trees are NOT removed, refuting the claim that working
trees are removed on every exit path. -/
theorem C10_counterexample :
    dirModeArchiveFinal true false ⟨true, true, true, false⟩ =
      ⟨true, true, true, false⟩ ∧
    (dirModeArchiveFinal true false ⟨true, true, true, false⟩).origTree = true ∧
    (dirModeArchiveFinal true false ⟨true, true, true, false⟩).translTree = true ∧
    fileModeFinal true false ⟨true, true, true, false⟩ = ⟨true, true, true, false⟩ :=
  ⟨rfl, rfl, rfl, rfl⟩

/-- C10 (amended): the temporary working trees are fully removed only on
successful exit paths: there `cleanup` runs and, a completed run having
repointed `temp_dir` at the translated tree, it removes both trees and
the track file.  On a fatal failure with tracking requested `cleanup` is
not invoked at all — the checkpoint file is preserved (as the claim
says) but the temporary working trees are preserved with it (contrary to
the claim).  On a fatal failure without tracking `cleanup` does run, yet
it removes only `temp_dir` and the original tree: a failure occurring
before `temp_dir` was repointed (`tempIsTransl = false`, e.g. a raise
inside the transformation loop, after `copytree` has already created the
translated tree) leaves the translated working tree on disk even on this
exit path. -/
theorem C10_cleanup_policy (track succeeded : Bool) (s : RunState) :
    (succeeded = true →
      dirModeArchiveFinal track succeeded s = cleanup s ∧
      fileModeFinal track succeeded s = cleanup s) ∧
    (succeeded = true → s.tempIsTransl = true →
      dirModeArchiveFinal track succeeded s = ⟨false, false, false, true⟩ ∧
      fileModeFinal track succeeded s = ⟨false, false, false, true⟩) ∧
    (succeeded = false → track = true →
      dirModeArchiveFinal track succeeded s = s ∧
      fileModeFinal track succeeded s = s) ∧
    (succeeded = false → track = false →
      dirModeArchiveFinal track succeeded s = cleanup s ∧
      fileModeFinal track succeeded s = cleanup s ∧
      (s.tempIsTransl = false →
        (dirModeArchiveFinal track succeeded s).translTree = s.translTree ∧
        (fileModeFinal track succeeded s).translTree = s.translTree)) ∧
    (cleanup s).origTree = false ∧
    (cleanup s).trackFile = false ∧
    (cleanup s).translTree = (if s.tempIsTransl then false else s.translTree) := by
  obtain ⟨o, tt, tf, ti⟩ := s
  refine ⟨?_, ?_, ?_, ?_, ?_, ?_, ?_⟩
  · intro hs
    subst hs
    cases track <;> exact ⟨rfl, rfl⟩
  · intro hs hti
    subst hs
    cases ti
    · exact absurd hti (by simp)
    · cases track <;> exact ⟨rfl, rfl⟩
  · intro hs ht
    subst hs
    subst ht
    exact ⟨rfl, rfl⟩
  · intro hs ht
    subst hs
    subst ht
    refine ⟨rfl, rfl, ?_⟩
    intro hti
    subst hti
    exact ⟨rfl, rfl⟩
  · cases ti <;> rfl
  · cases ti <;> rfl
  · cases ti <;> rfl

/-- C10, witness for the amended theorem: a successful tracked run on a
fully materialized state cleans everything. -/
theorem C10_amended_witness :
    dirModeArchiveFinal true true ⟨true, true, true, true⟩ =
      cleanup ⟨true, true, true, true⟩ ∧
    fileModeFinal true true ⟨true, true, true, true⟩ =
      cleanup ⟨true, true, true, true⟩ :=
  (C10_cleanup_policy true true ⟨true, true, true, true⟩).1 rfl

/-- C5, witness: a two-record checkpoint with one record already
translated, resumed with a succeeding translator. -/
theorem C5_witness :
    ∃ r : LoopResult,
      translate_all_from_track (fun _ => true) false (0 + 1) "d" "d"
        [⟨"d/a.html", "", "", true⟩, ⟨"d/b.html", "", "", false⟩] = Except.ok r ∧
      r.calls + ([(⟨"d/a.html", "", "", true⟩ : TrackItem),
        ⟨"d/b.html", "", "", false⟩].filter (fun it => it.translated)).length =
        [(⟨"d/a.html", "", "", true⟩ : TrackItem), ⟨"d/b.html", "", "", false⟩].length ∧
      r.track.length = [(⟨"d/a.html", "", "", true⟩ : TrackItem),
        ⟨"d/b.html", "", "", false⟩].length ∧
      ∀ it ∈ r.track, it.translated = true :=
  C5_resume_processes_exactly_remaining false 0 "d" "d"
    [⟨"d/a.html", "", "", true⟩, ⟨"d/b.html", "", "", false⟩]

/-- C9, witness: with the translated sibling absent, `book.epub` is
selected. -/
theorem C9_witness : "book.epub" ∈ batchSelect ["book.epub"] "pt-br" :=
  (C9_batch_skip_rule ["book.epub"] "pt-br" "book.epub").1.mpr
    ⟨by decide, by decide, by decide, by decide⟩

end EpubFlow

